import Mathlib

/-!
Verification development for the order analytics aggregation engine of
`preprocess_data.py` (BioCollabs dashboard preprocessing pipeline).

The Python source is shallowly embedded as executable Lean definitions:

* Python `str` values are Lean `String`s.  Because the built-in `String`
  ordering / slicing functions do not reduce in the kernel, the string
  operations the program uses (lexicographic comparison by code point,
  slicing, `strip`, `lower`/`upper`, substring test) are defined on the
  underlying `List Char` (`String.data`), which matches Python's code-point
  semantics for the data in play.
* Monetary values (parsed by `fnum` from decimal strings, defaulting to `0.0`
  on parse failure) are modelled as exact rationals `ℚ`; the string-to-number
  parse itself is outside every claim and is treated as already applied, so a
  `Row` carries the parsed amounts.
* Python dicts keyed by strings are modelled as association lists
  (`List (String × β)`) preserving insertion order, or as update functions
  where only pointwise reads occur; `defaultdict` accumulator tables are
  modelled per-cell as folds over the order list, which is faithful because
  each loop iteration touches exactly the cells named by its keys and cell
  updates for distinct keys are independent.
* Python `round` (banker's rounding, half to even) is modelled exactly on ℚ.
-/

namespace BCL

/-- Python `s.lower()` (ASCII case mapping; the data compared is ASCII). -/
def strLower (s : String) : String := ⟨s.data.map Char.toLower⟩

/-- Python `s.upper()` (ASCII case mapping). -/
def strUpper (s : String) : String := ⟨s.data.map Char.toUpper⟩

/-- Whitespace characters removed by Python `str.strip()` on this data. -/
def isSpaceChar (c : Char) : Bool := c = ' ' || c = '\t' || c = '\n' || c = '\r'

/-- Python `s.strip()`: drop leading and trailing whitespace. -/
def strTrim (s : String) : String :=
  ⟨((s.data.dropWhile isSpaceChar).reverse.dropWhile isSpaceChar).reverse⟩

/-- Python slice `s[:n]`. -/
def strTake (s : String) (n : Nat) : String := ⟨s.data.take n⟩

/-- Helper for the Python substring test: does `needle` occur in the list? -/
def strContainsAux (needle : List Char) : List Char → Bool
  | [] => needle.isEmpty
  | c :: rest => needle.isPrefixOf (c :: rest) || strContainsAux needle rest

/-- Python `sub in s` substring test. -/
def strContains (s sub : String) : Bool := strContainsAux sub.data s.data

/-- Python string comparison `a <= b` (lexicographic by code point). -/
def strLe (a b : String) : Bool := decide (a.data ≤ b.data)

/-- Python string comparison `a < b` (lexicographic by code point). -/
def strLt (a b : String) : Bool := decide (a.data < b.data)

/-- Decimal digits of a nonnegative integer, as characters. -/
def natDigits (n : Nat) : List Char := Nat.toDigits 10 n

/-- Python `f'{m:02d}'`. -/
def natPad2 (m : Nat) : String :=
  if m < 10 then ⟨'0' :: natDigits m⟩ else ⟨natDigits m⟩

/-- Python `f'{y:04d}-{m:02d}'` (years in play have four digits). -/
def monthStr (y m : Nat) : String := ⟨natDigits y ++ '-' :: (natPad2 m).data⟩

/-- Parse a digit list as a nonnegative integer (inputs are well formed). -/
def parseNatD (l : List Char) : Nat := l.foldl (fun a c => a * 10 + (c.toNat - 48)) 0

/-- Split a `'YYYY-MM'` month string into year and month numbers, as Python's
`map(int, s.split('-'))` does (`int` failure cannot occur on the month strings
the program builds; other shapes are totalised to `(0, 0)`). -/
def parseYM (s : String) : Nat × Nat :=
  match s.data.splitOn '-' with
  | [y, m] => (parseNatD y, parseNatD m)
  | _ => (0, 0)

/-- Model of `gen_months(start, end)`: every `'YYYY-MM'` from `start` to `end`
inclusive.  The Python while-loop over `(y, m)` pairs is rendered in closed
form over the linear month index, which visits exactly the same months in the
same ascending order. -/
def genMonths (s e : String) : List String :=
  let sy := (parseYM s).1
  let sm := (parseYM s).2
  let ey := (parseYM e).1
  let em := (parseYM e).2
  let base := sy * 12 + (sm - 1)
  let n := ey * 12 + (em - 1) + 1 - base
  (List.range n).map (fun i => monthStr ((base + i) / 12) ((base + i) % 12 + 1))

def START_MONTH : String := "2020-03"

def END_MONTH : String := "2026-02"

def ALL_MONTHS : List String := genMonths START_MONTH END_MONTH

def CTRY_KEYS : List String := ["ALL", "US", "GB", "DE", "NL", "CA"]

/-- Month difference `months_offset(m1, m2) = (y2 - y1) * 12 + (mo2 - mo1)`. -/
def months_offset (m1 m2 : String) : Int :=
  let y1 := ((parseYM m1).1 : Int)
  let mo1 := ((parseYM m1).2 : Int)
  let y2 := ((parseYM m2).1 : Int)
  let mo2 := ((parseYM m2).2 : Int)
  (y2 - y1) * 12 + (mo2 - mo1)

/-- Map a Lineitem name to a canonical product group (`map_product_group`). -/
def map_product_group (lname : String) : String :=
  let n := strLower lname
  if strContains n "detox" && strContains n "7" then "Detox 7-Day"
  else if strContains n "detox" && strContains n "14" then "Detox 14-Day"
  else if strContains n "detox" && strContains n "21" then "Detox 21-Day"
  else if strContains n "detox" && strContains n "28" then "Detox 28-Day"
  else if strContains n "body reset" || (strContains n "21 day" && !strContains n "detox") then
    "21-Day Body Reset"
  else if strContains n "calorie" then "Calorie Blocker"
  else if strContains n "drinking" then "Drinking Protocol"
  else if strContains n "sleep" then "Better Sleep"
  else if strContains n "liver health" then "Liver Health"
  else if strContains n "liver reset" then "Liver Reset"
  else if strContains n "liver" then "Liver Bundle"
  else if strContains n "brain" || strContains n "energy" then "Brain & Energy"
  else if strContains n "digestion" || strContains n "digestive" then "Digestion"
  else if strContains n "immune" then "Immune Support"
  else if strContains n "tiredness" || strContains n "tired" then "Tiredness"
  else "Other"

/-- One physical CSV row of an order export, with the monetary fields already
put through `fnum` (decimal parse, `0.0` on failure) as explained above. -/
structure Row where
  name : String
  lineitem_name : String
  tags : String
  shipping_country : String
  email : String
  created_at : String
  total : ℚ
  subtotal : ℚ
  discount : ℚ
  refunded : ℚ
  financial_status : String
deriving DecidableEq

/-- A normalized order attribute record, as stored in `orders[name]`. -/
structure Order where
  name : String
  email : String
  ctry : String
  created : String
  total : ℚ
  subtotal : ℚ
  discount : ℚ
  refunded : ℚ
  fin : String
  tags : String
  is_sub : Bool
deriving DecidableEq

/-- The attribute record built from the first-seen row for identifier `nm`
(the dict literal assigned to `orders[name]`). -/
def mkOrder (nm : String) (row : Row) : Order :=
  let tags := strTrim row.tags
  let country_raw := strUpper (strTrim row.shipping_country)
  { name := nm
    email := strLower (strTrim row.email)
    ctry := if country_raw ∈ ["US", "GB", "DE", "NL", "CA"] then country_raw else "OTHER"
    created := strTrim row.created_at
    total := row.total
    subtotal := row.subtotal
    discount := row.discount
    refunded := row.refunded
    fin := strLower (strTrim row.financial_status)
    tags := tags
    is_sub := "#U".data.isPrefixOf nm.data || strContains (strLower tags) "subscription" }

/-- Association-list read, `d.get(k)` on an insertion-ordered dict. -/
def alookup {β : Type} (l : List (String × β)) (k : String) : Option β :=
  (l.find? (fun p => p.1 == k)).map (fun p => p.2)

/-- The two dicts built by the ingestion loop: `orders` (insertion-ordered,
keyed by order name) and `order_product` (order name → product group). -/
structure IngestSt where
  orders : List Order
  order_product : List (String × String)
deriving DecidableEq

/-- One iteration of the ingestion loop body (Step 1 of the script). -/
def ingestStep (st : IngestSt) (row : Row) : IngestSt :=
  let nm := strTrim row.name
  if nm = "" then st
  else
    let lname := strTrim row.lineitem_name
    let op :=
      if (alookup st.order_product nm).isNone && lname != "" then
        st.order_product ++ [(nm, map_product_group lname)]
      else st.order_product
    if st.orders.any (fun o => o.name == nm) then { st with order_product := op }
    else if strContains nm "_E" then { st with order_product := op }
    else { orders := st.orders ++ [mkOrder nm row], order_product := op }

/-- Step 1: read all rows in file-scan order, deduplicating by name. -/
def ingest (rows : List Row) : IngestSt := rows.foldl ingestStep ⟨[], []⟩

/-- A valid order: an order together with its derived month bucket. -/
structure VOrder extends Order where
  month : String
deriving DecidableEq

/-- Step 2: the validity filter over the order store (iterated in insertion
order), attaching the month bucket `o['created'][:7]`. -/
def validFilter (l : List Order) : List VOrder :=
  l.filterMap (fun o =>
    if o.fin ∈ ["voided", "pending", ""] then none
    else
      let month := strTake o.created 7
      if month == "" || strLt month START_MONTH || strLt END_MONTH month then none
      else some { toOrder := o, month := month })

/-- The sort key relation of `valid.sort(key=lambda o: o['created'])`:
comparison of the raw creation-timestamp strings. -/
def createdLe (a b : VOrder) : Prop := a.created.data ≤ b.created.data

instance : DecidableRel createdLe := fun a b =>
  inferInstanceAs (Decidable (a.created.data ≤ b.created.data))

/-- Python `valid.sort(key=lambda o: o['created'])`.  Python's sort is the stable
sort by the key; `List.insertionSort` with this relation is stable in the
same sense (an element inserted from the left lands before every equal-key
element to its right), so the two agree extensionally. -/
def sortValid (l : List VOrder) : List VOrder := List.insertionSort createdLe l

instance : IsTotal VOrder createdLe :=
  ⟨fun a b => le_total a.created.data b.created.data⟩

instance : IsTrans VOrder createdLe :=
  ⟨fun _ _ _ h1 h2 => le_trans h1 h2⟩

/-- A valid order annotated by the customer-history pass. -/
structure AOrder extends VOrder where
  is_new : Bool
  sub_seq : Nat
deriving DecidableEq

/-- The mutable state of the history pass: `email_first` (email → first-seen
month, insertion-ordered) and `email_sub_seq` (`defaultdict(int)`). -/
structure TrackSt where
  email_first : List (String × String)
  email_sub_seq : String → Nat

/-- Point update of the `defaultdict(int)` counter table. -/
def setSeq (f : String → Nat) (k : String) (v : Nat) : String → Nat :=
  fun e => if e == k then v else f e

/-- One iteration of the customer-history loop body (Step 3). -/
def trackStep (st : TrackSt) (o : VOrder) : TrackSt × AOrder :=
  if o.email == "" then
    (st, { toVOrder := o, is_new := false, sub_seq := if o.is_sub then 1 else 0 })
  else
    let isNew := !(st.email_first.any (fun p => p.1 == o.email))
    let first' := if isNew then st.email_first ++ [(o.email, o.month)] else st.email_first
    if o.is_sub then
      let s := st.email_sub_seq o.email + 1
      ({ email_first := first', email_sub_seq := setSeq st.email_sub_seq o.email s },
       { toVOrder := o, is_new := isNew, sub_seq := s })
    else
      ({ email_first := first', email_sub_seq := st.email_sub_seq },
       { toVOrder := o, is_new := isNew, sub_seq := 0 })

/-- The history pass from a given state. -/
def trackGo (st : TrackSt) : List VOrder → List AOrder
  | [] => []
  | o :: rest => (trackStep st o).2 :: trackGo (trackStep st o).1 rest

/-- The state after running the history pass over a list. -/
def stAfter (st : TrackSt) : List VOrder → TrackSt
  | [] => st
  | o :: rest => stAfter (trackStep st o).1 rest

def initTrackSt : TrackSt := ⟨[], fun _ => 0⟩

/-- Step 3: the single forward pass over the time-sorted valid sequence. -/
def track (l : List VOrder) : List AOrder := trackGo initTrackSt l

/-- Destination buckets `['ALL'] + ([ctry] if ctry != 'OTHER' else [])`. -/
def destOf (ctry : String) : List String :=
  "ALL" :: (if ctry != "OTHER" then [ctry] else [])

/-- One monthly accumulator cell, `empty_mo(m)` without the redundant month
label (the cell is addressed by its `(market, month)` key). -/
structure Bucket where
  g : ℚ
  n : ℚ
  o : Nat
  nc : Nat
  rc : Nat
  d : ℚ
  r : ℚ
  sub : Nat
  ot : Nat
deriving DecidableEq

def emptyBucket : Bucket := ⟨0, 0, 0, 0, 0, 0, 0, 0, 0⟩

/-- The body of the monthly aggregation loop for one order hitting one cell:
`g = subtotal + discount`, `n = subtotal - refunded`, plus the counters. -/
def addToBucket (mo : Bucket) (o : AOrder) : Bucket :=
  let g := o.subtotal + o.discount
  let d := o.discount
  let r := o.refunded
  let n := o.subtotal - r
  { g := mo.g + g
    n := mo.n + n
    o := mo.o + 1
    nc := mo.nc + (if o.is_new then 1 else 0)
    rc := mo.rc + (if o.is_new then 0 else 1)
    d := mo.d + d
    r := mo.r + r
    sub := mo.sub + (if o.is_sub then 1 else 0)
    ot := mo.ot + (if o.is_sub then 0 else 1) }

/-- Step 4, cell `(c, m)` of `monthly`: the loop touches this cell exactly at
the orders with `o['month'] = m` and `c` among the order's destinations, in
list order, so the cell's final value is this fold. -/
def bucketOf (l : List AOrder) (c m : String) : Bucket :=
  l.foldl
    (fun mo o =>
      if (destOf o.ctry).contains c && o.month == m then addToBucket mo o else mo)
    emptyBucket

/-- Python `round(q)` / `round(q * 10^nd) / 10^nd`: banker's rounding, half to
even, modelled exactly on ℚ. -/
def pyRound (q : ℚ) : Int :=
  let f := ⌊q⌋
  let r := q - f
  if r < 1 / 2 then f else if 1 / 2 < r then f + 1 else if f % 2 = 0 then f else f + 1

/-- Python `round(q, nd)`. -/
def pyRoundTo (nd : Nat) (q : ℚ) : ℚ := (pyRound (q * 10 ^ nd) : ℚ) / 10 ^ nd

/-- The KPI rollup record of `country_totals[c]` (flag/name labels and the
donut counters, which are mere copies, omitted). -/
structure Totals where
  gross : ℚ
  net : ℚ
  orders : Nat
  nc : Nat
  rc : Nat
  aov : ℚ
  rr : ℚ
  dr : ℚ
  rtr : ℚ
deriving DecidableEq

/-- Step 8: KPI card rollup over one market's monthly array.  The inputs are
the monthly cells; `country_monthly` stores `round(...)` of the revenue
fields, so the sums here round each cell first, as the script does. -/
def countryTotals (arr : List Bucket) : Totals :=
  let gross := (arr.map (fun mo => (pyRound mo.g : ℚ))).sum
  let net := (arr.map (fun mo => (pyRound mo.n : ℚ))).sum
  let orders := (arr.map (fun mo => mo.o)).sum
  let nc := (arr.map (fun mo => mo.nc)).sum
  let rc := (arr.map (fun mo => mo.rc)).sum
  let disc := (arr.map (fun mo => (pyRound mo.d : ℚ))).sum
  let ret := (arr.map (fun mo => (pyRound mo.r : ℚ))).sum
  let aov := if orders ≠ 0 then gross / orders else 0
  let rr := if nc + rc ≠ 0 then (rc : ℚ) / ((nc : ℚ) + rc) * 100 else 0
  let dr := if gross ≠ 0 then disc / gross * 100 else 0
  let rtr := if gross ≠ 0 then ret / gross * 100 else 0
  { gross := pyRoundTo 2 gross
    net := pyRoundTo 2 net
    orders := orders
    nc := nc
    rc := rc
    aov := pyRoundTo 2 aov
    rr := pyRoundTo 1 rr
    dr := pyRoundTo 2 dr
    rtr := pyRoundTo 2 rtr }

/-- One entry of `email_sub_info`: the market of the identity's first counted
subscription order and its running maximum sequence number. -/
structure SubInfo where
  em : String
  ctry : String
  max_seq : Nat
deriving DecidableEq

/-- Update `email_sub_info[em]['max_seq'] = max(..., o['sub_seq'])`. -/
def bumpSeq (l : List SubInfo) (em : String) (s : Nat) : List SubInfo :=
  l.map (fun i => if i.em == em then { i with max_seq := max i.max_seq s } else i)

/-- Step 5, first half: build `email_sub_info` over the valid sequence. -/
def emailSubInfo (l : List AOrder) : List SubInfo :=
  l.foldl
    (fun acc o =>
      if o.email == "" || !o.is_sub || o.sub_seq == 0 then acc
      else
        let acc' :=
          if acc.any (fun i => i.em == o.email) then acc
          else acc ++ [⟨o.email, o.ctry, 0⟩]
        bumpSeq acc' o.email o.sub_seq)
    []

/-- Step 5, second half, slot `i` of `sub_ret[c]`: the loop
`for i in range(min(max_s, 8)): sub_ret[c][i] += 1` increments slot `i`
exactly for the identities with `i < min(max_s, 8)` and `c` among the
destinations of the identity's recorded market. -/
def subRet (l : List AOrder) (c : String) (i : Nat) : Nat :=
  (emailSubInfo l).foldl
    (fun acc info =>
      if (destOf info.ctry).contains c && i < min info.max_seq 8 then acc + 1 else acc)
    0

/-- One entry of `email_cohort`: cohort start month and market. -/
structure CohortInfo where
  cohort : String
  ctry : String
deriving DecidableEq

/-- Python dict assignment `d[k] = v` on an insertion-ordered dict:
overwrite in place if present, else append. -/
def aset (l : List (String × CohortInfo)) (k : String) (v : CohortInfo) :
    List (String × CohortInfo) :=
  if l.any (fun p => p.1 == k) then l.map (fun p => if p.1 == k then (k, v) else p)
  else l ++ [(k, v)]

/-- Step 7, first loop: assign cohorts at sequence-1 subscription orders whose
month lies in the cohort-eligibility window. -/
def emailCohort (l : List AOrder) : List (String × CohortInfo) :=
  l.foldl
    (fun acc o =>
      if o.email == "" || !o.is_sub || o.sub_seq != 1 then acc
      else if strLe "2023-01" o.month && strLe o.month "2025-12" then
        aset acc o.email ⟨o.month, o.ctry⟩
      else acc)
    []

/-- Loop body of the market-cohort accumulation, viewed at slot
`(c, cm, i)`, adding weight `w o` (gross revenue, or the constant 1 for the
order count) on a hit. -/
def cohortStep {β : Type} [Add β] (w : AOrder → β) (ec : List (String × CohortInfo))
    (c cm : String) (i : Nat) (acc : β) (o : AOrder) : β :=
  if o.email == "" || !o.is_sub then acc
  else
    match alookup ec o.email with
    | none => acc
    | some info =>
      let off := months_offset info.cohort o.month
      if off < 0 || 12 < off then acc
      else if (destOf info.ctry).contains c && info.cohort == cm && off == (i : Int) then
        acc + w o
      else acc

/-- Step 7, second loop, revenue slot `(c, cm, i)` of `cohort_rev`: the fold
over the valid sequence of the contributions landing in that slot. -/
def cohortRev (l : List AOrder) (c cm : String) (i : Nat) : ℚ :=
  l.foldl (cohortStep (fun o => o.subtotal + o.discount) (emailCohort l) c cm i) 0

/-- Step 7, second loop, order-count slot `(c, cm, i)` of `cohort_ord`. -/
def cohortOrd (l : List AOrder) (c cm : String) (i : Nat) : Nat :=
  l.foldl (cohortStep (fun _ => 1) (emailCohort l) c cm i) 0

/-- Step 11, first loop: `email_first_product`, the product group of each
identity's first subscription order (`order_product.get(name, 'Other')`). -/
def emailFirstProduct (op : List (String × String)) (l : List AOrder) :
    List (String × String) :=
  l.foldl
    (fun acc o =>
      if o.email == "" || !o.is_sub || o.sub_seq != 1 then acc
      else if acc.any (fun p => p.1 == o.email) then acc
      else acc ++ [(o.email, (alookup op o.name).getD "Other")])
    []

/-- Loop body of the product-cohort accumulation, viewed at slot `(grp, i)`,
adding weight `w o` (gross revenue, or the constant 1) on a hit. -/
def skuStep {β : Type} [Add β] (w : AOrder → β) (efp : List (String × String))
    (grp : String) (i : Nat) (acc : β) (o : AOrder) : β :=
  if o.email == "" || !o.is_sub || o.sub_seq < 1 || 13 < o.sub_seq then acc
  else
    match alookup efp o.email with
    | none => acc
    | some gp =>
      if gp == "" then acc
      else if gp == grp && o.sub_seq - 1 == i then acc + w o
      else acc

/-- Step 11, second loop, revenue slot `(grp, i)` of `sku_cohort_rev`. -/
def skuCohortRev (efp : List (String × String)) (l : List AOrder) (grp : String)
    (i : Nat) : ℚ :=
  l.foldl (skuStep (fun o => o.subtotal + o.discount) efp grp i) 0

/-- Step 11, second loop, order-count slot `(grp, i)` of `sku_cohort_ord`. -/
def skuCohortOrd (efp : List (String × String)) (l : List AOrder) (grp : String)
    (i : Nat) : Nat :=
  l.foldl (skuStep (fun _ => 1) efp grp i) 0

/-- Step 10 attachment: `round(comp / sess * 100, 2) if sess > 0 else 0`. -/
def weeklyCvr (sess comp : Nat) : ℚ :=
  if sess > 0 then pyRoundTo 2 ((comp : ℚ) / sess * 100) else 0

/-- Step 13 `pct_arr` entry:
`round(c / s * 100, 1) if s else None` — `None`, not `0`, on zero sessions. -/
def atcPct (sess cadds : Nat) : Option ℚ :=
  if sess != 0 then some (pyRoundTo 1 ((cadds : ℚ) / sess * 100)) else none

/-! ### Concrete fixtures used by witnesses and counterexamples -/

/-- A concrete valid order for examples. -/
def sampleV (nm email ctry created month : String) (sub : Bool) : VOrder :=
  { name := nm, email := email, ctry := ctry, created := created,
    total := 10, subtotal := 10, discount := 0, refunded := 0,
    fin := "paid", tags := "", is_sub := sub, month := month }

/-- A concrete annotated order for examples. -/
def sampleA (ctry month : String) : AOrder :=
  { toVOrder := sampleV "#1" "b@x.com" ctry "2024-01-01 00:00:00" month false,
    is_new := true, sub_seq := 0 }

/-- The spec's worked example order: subtotal 100, discount 20, refunded 30. -/
def c7ex : AOrder :=
  { name := "#1001", email := "b@x.com", ctry := "US",
    created := "2024-03-05 10:00:00", total := 120, subtotal := 100,
    discount := 20, refunded := 30, fin := "paid", tags := "", is_sub := false,
    month := "2024-03", is_new := true, sub_seq := 0 }

/-- The spec's worked history example: three subscription orders of
`a@x.com` in March, April and May 2024. -/
def c3exList : List VOrder :=
  [sampleV "#U1" "a@x.com" "US" "2024-03-05 10:00:00" "2024-03" true,
   sampleV "#U2" "a@x.com" "US" "2024-04-05 10:00:00" "2024-04" true,
   sampleV "#U3" "a@x.com" "US" "2024-05-05 10:00:00" "2024-05" true]

/-- Fourteen subscription orders of one identity (sequence numbers 1..14
after tracking). -/
def c1list : List VOrder :=
  (List.range 14).map (fun k =>
    sampleV ⟨'#' :: 'U' :: natDigits k⟩ "a@x.com" "US" "2024-03-01 00:00:00" "2024-03" true)

/-- The tracked form of `c1list`. -/
def c1tracked : List AOrder := track c1list

/-- Two subscription orders of one identity sharing one raw creation
timestamp (a sort-key tie). -/
def c2tieA : VOrder := sampleV "#UA" "a@x.com" "US" "2024-03-05 10:00:00 +0000" "2024-03" true

/-- Second tied order, same identity and timestamp as `c2tieA`. -/
def c2tieB : VOrder := sampleV "#UB" "a@x.com" "US" "2024-03-05 10:00:00 +0000" "2024-03" true

/-- Two orders with distinct raw creation timestamps. -/
def c2dA : VOrder := sampleV "#UA" "a@x.com" "US" "2024-03-05 10:00:00 +0000" "2024-03" true

/-- Second distinct-timestamp order. -/
def c2dB : VOrder := sampleV "#UB" "a@x.com" "US" "2024-04-06 11:00:00 +0000" "2024-04" true

/-- Ingestion fixture: first row of order 1001. -/
def c8row1 : Row :=
  { name := "1001", lineitem_name := "Detox 7 Day", tags := "Subscription",
    shipping_country := "us", email := "A@X.com ", created_at := "2024-03-05 10:00:00",
    total := 120, subtotal := 100, discount := 20, refunded := 0,
    financial_status := "Paid" }

/-- Ingestion fixture: duplicate row for order 1001 with different attributes. -/
def c8row2 : Row :=
  { name := " 1001 ", lineitem_name := "Liver Reset", tags := "",
    shipping_country := "de", email := "other@y.com", created_at := "2020-01-01 00:00:00",
    total := 1, subtotal := 1, discount := 0, refunded := 0,
    financial_status := "voided" }

/-- Ingestion fixture: a bulk-migration row whose identifier carries `_E`. -/
def c8rowE : Row :=
  { name := "99_E7", lineitem_name := "Sleep", tags := "",
    shipping_country := "gb", email := "mig@y.com", created_at := "2023-02-01 00:00:00",
    total := 5, subtotal := 5, discount := 0, refunded := 0,
    financial_status := "paid" }

/-- Ingestion fixture row list. -/
def c8rows : List Row := [c8row1, c8row2, c8rowE]

/-! ### Helper lemmas -/

theorem foldl_count {α : Type} (p : α → Bool) (l : List α) :
    ∀ acc : Nat, l.foldl (fun a x => if p x then a + 1 else a) acc = acc + l.countP p := by
  induction l with
  | nil => intro acc; simp
  | cons x t ih =>
    intro acc
    simp only [List.foldl_cons, List.countP_cons]
    cases hx : p x <;> simp [hx, ih] <;> omega

theorem countP_and_split {α : Type} (p q : α → Bool) (l : List α) :
    l.countP (fun a => p a && q a) + l.countP (fun a => p a && !q a) = l.countP p := by
  induction l with
  | nil => simp
  | cons x t ih =>
    simp only [List.countP_cons]
    cases hp : p x <;> cases hq : q x <;> simp [hp, hq] <;> omega

theorem countP_or_disjoint {α : Type} (a b : α → Bool) (l : List α)
    (h : ∀ x ∈ l, a x = true → b x = false) :
    l.countP (fun x => a x || b x) = l.countP a + l.countP b := by
  induction l with
  | nil => simp
  | cons x t ih =>
    have ht : ∀ y ∈ t, a y = true → b y = false :=
      fun y hy => h y (List.mem_cons_of_mem _ hy)
    simp only [List.countP_cons]
    cases ha : a x
    · cases hb : b x <;> simp [ha, hb, ih ht] <;> omega
    · have hb : b x = false := h x (List.mem_cons_self _ _) ha
      simp [ha, hb, ih ht]
      omega

/-- A fold whose step adds a per-element weight to a tracked field. -/
theorem foldl_field {β γ : Type} (step : β → γ → β) (F : β → Nat) (w : γ → Nat)
    (h : ∀ b x, F (step b x) = F b + w x) (l : List γ) :
    ∀ b, F (l.foldl step b) = F b + (l.map w).sum := by
  induction l with
  | nil => intro b; simp
  | cons x t ih =>
    intro b
    simp only [List.foldl_cons, List.map_cons, List.sum_cons]
    rw [ih (step b x), h b x]
    omega

theorem sum_indicator_countP {α : Type} (p : α → Bool) (l : List α) :
    (l.map (fun x => if p x then 1 else 0)).sum = l.countP p := by
  induction l with
  | nil => simp
  | cons x t ih =>
    simp only [List.map_cons, List.sum_cons, List.countP_cons]
    cases hx : p x <;> simp [hx, ih] <;> omega

/-- Characterization of the order-count field of a monthly cell. -/
theorem bucketOf_o (l : List AOrder) (c m : String) :
    (bucketOf l c m).o
      = l.countP (fun o => (destOf o.ctry).contains c && o.month == m) := by
  have h := foldl_field
    (fun mo o => if (destOf o.ctry).contains c && o.month == m then addToBucket mo o else mo)
    (fun b => b.o)
    (fun o => if (destOf o.ctry).contains c && o.month == m then 1 else 0)
    (by
      intro b x
      simp only []
      cases hp : ((destOf x.ctry).contains c && x.month == m)
      · rw [if_neg (by simp [hp]), if_neg (by simp [hp])]
        omega
      · simp [addToBucket])
    l emptyBucket
  simp only [] at h
  unfold bucketOf
  rw [h, sum_indicator_countP]
  simp [emptyBucket]

/-- Characterization of the new-customer count field of a monthly cell. -/
theorem bucketOf_nc (l : List AOrder) (c m : String) :
    (bucketOf l c m).nc
      = l.countP (fun o => ((destOf o.ctry).contains c && o.month == m) && o.is_new) := by
  have h := foldl_field
    (fun mo o => if (destOf o.ctry).contains c && o.month == m then addToBucket mo o else mo)
    (fun b => b.nc)
    (fun o => if ((destOf o.ctry).contains c && o.month == m) && o.is_new then 1 else 0)
    (by
      intro b x
      simp only []
      cases hp : ((destOf x.ctry).contains c && x.month == m)
      · rw [if_neg (by simp [hp]), if_neg (by simp [hp])]
        omega
      · cases hn : x.is_new <;> simp [addToBucket, hn])
    l emptyBucket
  simp only [] at h
  unfold bucketOf
  rw [h, sum_indicator_countP]
  simp [emptyBucket]

/-- Characterization of the returning-customer count field of a monthly cell. -/
theorem bucketOf_rc (l : List AOrder) (c m : String) :
    (bucketOf l c m).rc
      = l.countP (fun o => ((destOf o.ctry).contains c && o.month == m) && !o.is_new) := by
  have h := foldl_field
    (fun mo o => if (destOf o.ctry).contains c && o.month == m then addToBucket mo o else mo)
    (fun b => b.rc)
    (fun o => if ((destOf o.ctry).contains c && o.month == m) && !o.is_new then 1 else 0)
    (by
      intro b x
      simp only []
      cases hp : ((destOf x.ctry).contains c && x.month == m)
      · rw [if_neg (by simp [hp]), if_neg (by simp [hp])]
        omega
      · cases hn : x.is_new <;> simp [addToBucket, hn])
    l emptyBucket
  simp only [] at h
  unfold bucketOf
  rw [h, sum_indicator_countP]
  simp [emptyBucket]

/-- Characterization of the subscription-order count field of a monthly cell. -/
theorem bucketOf_sub (l : List AOrder) (c m : String) :
    (bucketOf l c m).sub
      = l.countP (fun o => ((destOf o.ctry).contains c && o.month == m) && o.is_sub) := by
  have h := foldl_field
    (fun mo o => if (destOf o.ctry).contains c && o.month == m then addToBucket mo o else mo)
    (fun b => b.sub)
    (fun o => if ((destOf o.ctry).contains c && o.month == m) && o.is_sub then 1 else 0)
    (by
      intro b x
      simp only []
      cases hp : ((destOf x.ctry).contains c && x.month == m)
      · rw [if_neg (by simp [hp]), if_neg (by simp [hp])]
        omega
      · cases hs : x.is_sub <;> simp [addToBucket, hs])
    l emptyBucket
  simp only [] at h
  unfold bucketOf
  rw [h, sum_indicator_countP]
  simp [emptyBucket]

/-- Characterization of the one-time-order count field of a monthly cell. -/
theorem bucketOf_ot (l : List AOrder) (c m : String) :
    (bucketOf l c m).ot
      = l.countP (fun o => ((destOf o.ctry).contains c && o.month == m) && !o.is_sub) := by
  have h := foldl_field
    (fun mo o => if (destOf o.ctry).contains c && o.month == m then addToBucket mo o else mo)
    (fun b => b.ot)
    (fun o => if ((destOf o.ctry).contains c && o.month == m) && !o.is_sub then 1 else 0)
    (by
      intro b x
      simp only []
      cases hp : ((destOf x.ctry).contains c && x.month == m)
      · rw [if_neg (by simp [hp]), if_neg (by simp [hp])]
        omega
      · cases hs : x.is_sub <;> simp [addToBucket, hs])
    l emptyBucket
  simp only [] at h
  unfold bucketOf
  rw [h, sum_indicator_countP]
  simp [emptyBucket]

/-- A fold counting with a weaker condition counts at least as much. -/
theorem foldl_count_mono {α : Type} (p q : α → Bool) (l : List α)
    (hpq : ∀ x ∈ l, p x = true → q x = true) :
    ∀ a b : Nat, a ≤ b →
      l.foldl (fun a x => if p x then a + 1 else a) a
        ≤ l.foldl (fun a x => if q x then a + 1 else a) b := by
  induction l with
  | nil => intro a b h; simpa using h
  | cons x t ih =>
    intro a b hab
    simp only [List.foldl_cons]
    refine ih (fun y hy => hpq y (List.mem_cons_of_mem _ hy)) _ _ ?_
    cases hp : p x
    · cases hq : q x <;> simp [hp, hq] <;> omega
    · have hq := hpq x (List.mem_cons_self _ _) hp
      simp [hp, hq]
      omega

theorem pyRound_zero : pyRound 0 = 0 := by norm_num [pyRound]

theorem pyRoundTo_zero (nd : Nat) : pyRoundTo nd 0 = 0 := by
  simp [pyRoundTo, pyRound_zero]

/-! ### Claims -/

/-- Claim C10: in every monthly bucket, the new-customer count plus the
returning-customer count equals the bucket's order count, and the
subscription-order count plus the one-time-order count equals the bucket's
order count — every counted order is classified exactly once on each axis. -/
theorem claim10_bucket_consistency : ∀ (l : List AOrder) (c m : String),
    (bucketOf l c m).nc + (bucketOf l c m).rc = (bucketOf l c m).o
    ∧ (bucketOf l c m).sub + (bucketOf l c m).ot = (bucketOf l c m).o := by
  intro l c m
  rw [bucketOf_o, bucketOf_nc, bucketOf_rc, bucketOf_sub, bucketOf_ot]
  have h1 := countP_and_split (fun o : AOrder => (destOf o.ctry).contains c && o.month == m)
    (fun o => o.is_new) l
  have h2 := countP_and_split (fun o : AOrder => (destOf o.ctry).contains c && o.month == m)
    (fun o => o.is_sub) l
  simp only [] at h1 h2
  omega

/-- Claim C6: for every market key, the subscription retention funnel is
monotonically nonincreasing in depth, because an identity with recorded
maximum sequence `max_seq` is counted at every depth `i < min max_seq 8`. -/
theorem claim6_funnel_monotone : ∀ (l : List AOrder) (c : String) (d : Nat),
    subRet l c (d + 1) ≤ subRet l c d := by
  intro l c d
  exact foldl_count_mono
    (fun info => (destOf info.ctry).contains c && decide (d + 1 < min info.max_seq 8))
    (fun info => (destOf info.ctry).contains c && decide (d < min info.max_seq 8))
    (emailSubInfo l)
    (fun info _ h => by
      simp only [Bool.and_eq_true, decide_eq_true_eq] at h ⊢
      exact ⟨h.1, Nat.lt_of_succ_lt h.2⟩)
    0 0 le_rfl

/-- Claim C7: a valid order contributes `gross = subtotal + discount` and
`net = subtotal - refunded` to its monthly cells; in particular an order with
subtotal 100, discount 20, refunded 30 yields gross 120 and net 70. -/
theorem claim7_derived_values : ∀ (o : AOrder) (c : String),
    (destOf o.ctry).contains c = true →
    (bucketOf [o] c o.month).g = o.subtotal + o.discount
    ∧ (bucketOf [o] c o.month).n = o.subtotal - o.refunded := by
  intro o c h
  have h' : c ∈ destOf o.ctry := by
    have := List.mem_of_elem_eq_true h
    exact this
  simp [bucketOf, addToBucket, emptyBucket, h']

/-- Witness for C7 at the spec's example numbers. -/
theorem claim7_witness :
    (bucketOf [c7ex] "ALL" c7ex.month).g = 120
    ∧ (bucketOf [c7ex] "ALL" c7ex.month).n = 70 := by
  have h := claim7_derived_values c7ex "ALL" (by decide)
  refine ⟨h.1.trans ?_, h.2.trans ?_⟩ <;> norm_num [c7ex]

/-- Claim C9: the per-market KPI ratios yield 0 on a zero denominator (orders
for AOV, customers for returning rate, gross for discount and refund rates),
the weekly conversion rate yields 0 on zero sessions, and the product-interest
cart-addition rate yields `none` (missing), not 0, on zero sessions. -/
theorem claim9_ratio_guards : ∀ (arr : List Bucket) (comp ca : Nat),
    ((arr.map (fun mo => mo.o)).sum = 0 → (countryTotals arr).aov = 0)
    ∧ ((arr.map (fun mo => mo.nc)).sum + (arr.map (fun mo => mo.rc)).sum = 0 →
        (countryTotals arr).rr = 0)
    ∧ ((arr.map (fun mo => (pyRound mo.g : ℚ))).sum = 0 →
        (countryTotals arr).dr = 0 ∧ (countryTotals arr).rtr = 0)
    ∧ weeklyCvr 0 comp = 0
    ∧ atcPct 0 ca = none
    ∧ ∀ sess, sess ≠ 0 → (atcPct sess ca).isSome = true := by
  intro arr comp ca
  refine ⟨fun h => ?_, fun h => ?_, fun h => ?_, ?_, ?_, fun sess hs => ?_⟩
  · simp [countryTotals, h, pyRoundTo_zero]
  · simp [countryTotals, Nat.add_eq_zero.mp h, pyRoundTo_zero]
  · constructor <;> simp [countryTotals, h, pyRoundTo_zero]
  · simp [weeklyCvr]
  · simp [atcPct]
  · simp [atcPct, hs]

/-- Witness for C9 at concrete zero-denominator inputs. -/
theorem claim9_witness :
    (countryTotals [emptyBucket]).aov = 0
    ∧ (countryTotals [emptyBucket]).rr = 0
    ∧ (countryTotals [emptyBucket]).dr = 0
    ∧ weeklyCvr 0 7 = 0
    ∧ atcPct 0 5 = none
    ∧ (atcPct 3 5).isSome = true := by
  have h := claim9_ratio_guards [emptyBucket] 7 5
  exact ⟨(h.1 (by simp [emptyBucket])), (h.2.1 (by simp [emptyBucket])),
    (h.2.2.1 (by simp [emptyBucket, pyRound_zero])).1,
    h.2.2.2.1, h.2.2.2.2.1, h.2.2.2.2.2 3 (by decide)⟩

theorem foldl_const_of_skip {β γ : Type} (step : β → γ → β)
    (h : ∀ b x, step b x = b) (l : List γ) : ∀ b, l.foldl step b = b := by
  induction l with
  | nil => intro b; simp
  | cons x t ih => intro b; simp only [List.foldl_cons, h b x]; exact ih b

/-- The market-cohort loop body never fires at a slot index outside 0..12. -/
theorem cohortStep_skip {β : Type} [Add β] (w : AOrder → β)
    (ec : List (String × CohortInfo)) (c cm : String) (i : Nat) (hi : 13 ≤ i) :
    ∀ (b : β) (x : AOrder), cohortStep w ec c cm i b x = b := by
  intro b x
  unfold cohortStep
  cases he : (x.email == "" || !x.is_sub)
  · rcases halk : alookup ec x.email with _ | info
    · simp [halk]
    · simp only [halk]
      cases hoff : (decide (months_offset info.cohort x.month < 0)
          || decide (12 < months_offset info.cohort x.month))
      · have hoff' := hoff
        simp only [Bool.or_eq_false_iff, decide_eq_false_iff_not, not_lt] at hoff'
        have hne : (months_offset info.cohort x.month == (i : Int)) = false := by
          refine beq_eq_false_iff_ne.mpr ?_
          omega
        simp [hoff, hne]
      · simp [hoff]
  · simp [he]

/-- The product-cohort loop body never fires at a slot index outside 0..12. -/
theorem skuStep_skip {β : Type} [Add β] (w : AOrder → β)
    (efp : List (String × String)) (grp : String) (i : Nat) (hi : 13 ≤ i) :
    ∀ (b : β) (x : AOrder), skuStep w efp grp i b x = b := by
  intro b x
  unfold skuStep
  cases he : (x.email == "" || !x.is_sub || decide (x.sub_seq < 1) || decide (13 < x.sub_seq))
  · have he' := he
    simp only [Bool.or_eq_false_iff, decide_eq_false_iff_not, not_lt] at he'
    rcases halk : alookup efp x.email with _ | gp
    · simp [halk]
    · have hne : (x.sub_seq - 1 == i) = false := by
        refine beq_eq_false_iff_ne.mpr ?_
        omega
      simp [halk, hne]
  · simp [he]

/-- Claim C5: no cohort slot at an offset outside 0..12 — in either the
market cohort (`cohort_rev` / `cohort_ord`) or the product cohort
(`sku_cohort_rev` / `sku_cohort_ord`) — ever receives a contribution; every
contribution lands at an index in 0..12 of the 13-slot row. -/
theorem claim5_cohort_offset_bound :
    ∀ (l : List AOrder) (efp : List (String × String)) (c cm grp : String) (i : Nat),
      13 ≤ i →
      cohortRev l c cm i = 0 ∧ cohortOrd l c cm i = 0
      ∧ skuCohortRev efp l grp i = 0 ∧ skuCohortOrd efp l grp i = 0 := by
  intro l efp c cm grp i hi
  refine ⟨?_, ?_, ?_, ?_⟩
  · exact foldl_const_of_skip _ (cohortStep_skip _ (emailCohort l) c cm i hi) l 0
  · exact foldl_const_of_skip _ (cohortStep_skip _ (emailCohort l) c cm i hi) l 0
  · exact foldl_const_of_skip _ (skuStep_skip _ efp grp i hi) l 0
  · exact foldl_const_of_skip _ (skuStep_skip _ efp grp i hi) l 0

/-- Witness for C5 at slot index 13 on a concrete order list. -/
theorem claim5_witness :
    cohortRev [c7ex] "ALL" "2024-03" 13 = 0 ∧ cohortOrd [c7ex] "ALL" "2024-03" 13 = 0
    ∧ skuCohortRev [] [c7ex] "Other" 13 = 0 ∧ skuCohortOrd [] [c7ex] "Other" 13 = 0 :=
  claim5_cohort_offset_bound [c7ex] [] "ALL" "2024-03" "Other" 13 (by decide)

theorem countP_congr_list {α : Type} (p q : α → Bool) (l : List α)
    (h : ∀ a ∈ l, p a = q a) : l.countP p = l.countP q := by
  induction l with
  | nil => simp
  | cons x t ih =>
    have ht : ∀ a ∈ t, p a = q a := fun a ha => h a (List.mem_cons_of_mem _ ha)
    simp only [List.countP_cons, h x (List.mem_cons_self _ _), ih ht]

theorem all_months_nodup : ALL_MONTHS.Nodup := by decide

/-- Summing per-month counts over distinct months counts each order once. -/
theorem sum_map_countP_eq (p : AOrder → Bool) :
    ∀ M : List String, M.Nodup → ∀ l : List AOrder,
      (M.map (fun m => l.countP (fun o => p o && o.month == m))).sum
        = l.countP (fun o => p o && M.contains o.month) := by
  intro M
  induction M with
  | nil =>
    intro _ l
    simp
  | cons m M' ih =>
    intro hnd l
    obtain ⟨hm, hnd'⟩ := List.nodup_cons.mp hnd
    simp only [List.map_cons, List.sum_cons, ih hnd' l]
    have hdisj : ∀ o : AOrder, o ∈ l →
        (p o && o.month == m) = true → (p o && M'.contains o.month) = false := by
      intro o _ ho
      simp only [Bool.and_eq_true, beq_iff_eq] at ho
      have hcontains : M'.contains o.month = false := by
        rw [ho.2]
        cases hcm : M'.contains m
        · rfl
        · exact absurd (List.mem_of_elem_eq_true hcm) hm
      rw [hcontains, Bool.and_false]
    rw [← countP_or_disjoint _ _ l hdisj]
    refine countP_congr_list _ _ l (fun o _ => ?_)
    rw [List.contains_cons, Bool.and_or_distrib_left]

/-- Key `'ALL'` is among every order's destinations. -/
theorem destOf_contains_all (ctry : String) : (destOf ctry).contains "ALL" = true := by
  simp [destOf]

/-- For a concrete market key other than `'ALL'` and `'OTHER'`, membership in
the destination list is exactly market equality. -/
theorem destOf_contains_mkt (ctry c : String) (h1 : c ≠ "ALL") (h2 : c ≠ "OTHER") :
    (destOf ctry).contains c = (ctry == c) := by
  unfold destOf
  by_cases ho : ctry = "OTHER"
  · subst ho
    have hx : ("OTHER" == c) = false := beq_eq_false_iff_ne.mpr (Ne.symm h2)
    simp [h1, hx, Ne.symm h2]
  · by_cases hc2 : ctry = c
    · subst hc2
      simp [ho]
    · have hcb : (ctry == c) = false := beq_eq_false_iff_ne.mpr hc2
      simp [ho, hcb, h1, Ne.symm hc2]

/-- Claim C4: summed over all months in the window, the monthly-bucket order
counts for `'ALL'` equal the number of valid orders, and for each concrete
market they equal the number of valid orders of that market; an order's
destinations are `'ALL'`, plus its own market exactly when it is not
`'OTHER'`.  (The hypothesis that every month bucket lies in the window is the
condition under which the Python dict indexing `monthly[c][m]` succeeds at
all.) -/
theorem claim4_conservation :
    (∀ l : List AOrder, (∀ o ∈ l, o.month ∈ ALL_MONTHS) →
      ((ALL_MONTHS.map (fun m => (bucketOf l "ALL" m).o)).sum = l.length
        ∧ ∀ c ∈ (["US", "GB", "DE", "NL", "CA"] : List String),
            (ALL_MONTHS.map (fun m => (bucketOf l c m).o)).sum
              = l.countP (fun o => o.ctry == c)))
    ∧ (∀ ctry c : String, c ∈ destOf ctry ↔ (c = "ALL" ∨ (c = ctry ∧ ctry ≠ "OTHER"))) := by
  constructor
  · intro l hmem
    constructor
    · simp only [bucketOf_o]
      rw [sum_map_countP_eq _ ALL_MONTHS all_months_nodup l]
      have : ∀ o ∈ l, ((destOf o.ctry).contains "ALL" && ALL_MONTHS.contains o.month)
          = (fun _ : AOrder => true) o := by
        intro o ho
        have hA := destOf_contains_all o.ctry
        have hM : ALL_MONTHS.contains o.month = true :=
          List.elem_eq_true_of_mem (hmem o ho)
        rw [hA, hM]
        rfl
      rw [countP_congr_list _ _ l this, List.countP_true]
    · intro c hc
      have h12 : c ≠ "ALL" ∧ c ≠ "OTHER" := by
        fin_cases hc <;> exact ⟨by decide, by decide⟩
      simp only [bucketOf_o]
      rw [sum_map_countP_eq _ ALL_MONTHS all_months_nodup l]
      refine countP_congr_list _ _ l (fun o ho => ?_)
      have hM : ALL_MONTHS.contains o.month = true :=
        List.elem_eq_true_of_mem (hmem o ho)
      rw [destOf_contains_mkt o.ctry c h12.1 h12.2, hM, Bool.and_true]
  · intro ctry c
    unfold destOf
    by_cases ho : ctry = "OTHER"
    · subst ho
      simp
    · simp [ho, bne_iff_ne, Ne.symm ho]

theorem trackGo_length : ∀ (l : List VOrder) (st : TrackSt),
    (trackGo st l).length = l.length := by
  intro l
  induction l with
  | nil => intro st; rfl
  | cons o t ih => intro st; simp [trackGo, ih]

theorem trackGo_append : ∀ (p s : List VOrder) (st : TrackSt),
    trackGo st (p ++ s) = trackGo st p ++ trackGo (stAfter st p) s := by
  intro p
  induction p with
  | nil => intro s st; rfl
  | cons o t ih =>
    intro s st
    simp only [List.cons_append, trackGo, stAfter]
    exact congrArg _ (ih s (trackStep st o).1)

/-- One step of the history pass: effect on the first-seen table. -/
theorem trackStep_first_any (st : TrackSt) (o : VOrder) (em : String) (hem : em ≠ "") :
    (trackStep st o).1.email_first.any (fun q => q.1 == em)
      = (st.email_first.any (fun q => q.1 == em) || (o.email == em)) := by
  by_cases he : o.email = ""
  · have hb : (o.email == em) = false := by
      rw [he]
      exact beq_eq_false_iff_ne.mpr (Ne.symm hem)
    rw [show (trackStep st o).1 = st from by simp [trackStep, he], hb, Bool.or_false]
  · have hbe : (o.email == "") = false := beq_eq_false_iff_ne.mpr he
    by_cases hNew : st.email_first.any (fun p => p.1 == o.email) = true
    · have hstate : (trackStep st o).1.email_first = st.email_first := by
        by_cases hs : o.is_sub = true <;> simp [trackStep, hbe, hNew, hs]
      rw [hstate]
      by_cases hoe : o.email = em
      · subst hoe
        rw [hNew]
        simp [hNew]
      · have : (o.email == em) = false := beq_eq_false_iff_ne.mpr hoe
        simp [this]
    · have hstate : (trackStep st o).1.email_first
          = st.email_first ++ [(o.email, o.month)] := by
        by_cases hs : o.is_sub = true <;>
          simp [trackStep, hbe, hNew, hs]
      rw [hstate, List.any_append]
      simp

/-- One step of the history pass: effect on the sequence counters. -/
theorem trackStep_seq (st : TrackSt) (o : VOrder) (em : String) (hem : em ≠ "") :
    (trackStep st o).1.email_sub_seq em
      = st.email_sub_seq em + (if (o.email == em && o.is_sub) then 1 else 0) := by
  by_cases he : o.email = ""
  · have hb : (o.email == em) = false := by
      rw [he]
      exact beq_eq_false_iff_ne.mpr (Ne.symm hem)
    rw [show (trackStep st o).1 = st from by simp [trackStep, he], hb]
    simp
  · have hbe : (o.email == "") = false := beq_eq_false_iff_ne.mpr he
    by_cases hs : o.is_sub = true
    · have hstate : (trackStep st o).1.email_sub_seq
          = setSeq st.email_sub_seq o.email (st.email_sub_seq o.email + 1) := by
        simp [trackStep, hbe, hs]
      rw [hstate]
      unfold setSeq
      by_cases hoe : em = o.email
      · have h1 : (em == o.email) = true := beq_iff_eq.mpr hoe
        have h2 : (o.email == em && o.is_sub) = true := by
          simp [beq_iff_eq.mpr hoe.symm, hs]
        rw [hoe]
        simp [h1, h2, hoe, hs]
      · have h1 : (em == o.email) = false := beq_eq_false_iff_ne.mpr hoe
        have h2 : (o.email == em) = false := beq_eq_false_iff_ne.mpr (Ne.symm hoe)
        simp [h1, h2]
    · have hstate : (trackStep st o).1.email_sub_seq = st.email_sub_seq := by
        simp [trackStep, hbe, hs]
      rw [hstate]
      simp [hs]

theorem stAfter_first_any : ∀ (p : List VOrder) (st : TrackSt) (em : String), em ≠ "" →
    (stAfter st p).email_first.any (fun q => q.1 == em)
      = (st.email_first.any (fun q => q.1 == em) || p.any (fun o => o.email == em)) := by
  intro p
  induction p with
  | nil => intro st em h; simp [stAfter]
  | cons o t ih =>
    intro st em hem
    simp only [stAfter]
    rw [ih _ em hem, trackStep_first_any st o em hem, List.any_cons]
    simp [Bool.or_assoc]

theorem stAfter_seq : ∀ (p : List VOrder) (st : TrackSt) (em : String), em ≠ "" →
    (stAfter st p).email_sub_seq em
      = st.email_sub_seq em + p.countP (fun o => o.email == em && o.is_sub) := by
  intro p
  induction p with
  | nil => intro st em h; simp [stAfter]
  | cons o t ih =>
    intro st em hem
    simp only [stAfter, List.countP_cons]
    rw [ih _ em hem, trackStep_seq st o em hem]
    omega

/-- The annotation emitted for one order, given the state reached so far. -/
theorem trackStep_snd (st : TrackSt) (o : VOrder) :
    (trackStep st o).2 =
      { toVOrder := o,
        is_new := o.email != "" && !(st.email_first.any (fun q => q.1 == o.email)),
        sub_seq := if o.email = "" then (if o.is_sub then 1 else 0)
                   else if o.is_sub then st.email_sub_seq o.email + 1 else 0 } := by
  by_cases he : o.email = ""
  · simp [trackStep, he]
  · have hbe : (o.email == "") = false := beq_eq_false_iff_ne.mpr he
    by_cases hs : o.is_sub = true <;> simp [trackStep, hbe, he, hs]

/-- Claim C3: in the forward pass, an order with a present identity is new
iff no earlier order in the sequence carries that identity, and a
subscription order receives the identity's running 1-based subscription
count (count of its subscription orders so far, this one included), while
non-subscription orders receive 0; an order with an absent identity is never
new and receives 1 if it is a subscription, else 0.  In particular the
spec's three March/April/May subscription orders receive 1, 2, 3. -/
theorem claim3_history_tracking :
    (∀ (p : List VOrder) (o : VOrder) (s : List VOrder),
      (track (p ++ o :: s))[p.length]? =
        some { toVOrder := o,
               is_new := o.email != "" && !(p.any (fun q => q.email == o.email)),
               sub_seq := if o.email = "" then (if o.is_sub then 1 else 0)
                          else if o.is_sub then
                            p.countP (fun q => q.email == o.email && q.is_sub) + 1
                          else 0 })
    ∧ (track c3exList).map (fun a => a.sub_seq) = [1, 2, 3] := by
  constructor
  · intro p o s
    unfold track
    rw [trackGo_append]
    rw [List.getElem?_append_right (le_of_eq (trackGo_length p initTrackSt))]
    rw [trackGo_length p initTrackSt, Nat.sub_self]
    rw [show trackGo (stAfter initTrackSt p) (o :: s)
        = (trackStep (stAfter initTrackSt p) o).2
          :: trackGo (trackStep (stAfter initTrackSt p) o).1 s from rfl]
    rw [List.getElem?_cons_zero, trackStep_snd]
    by_cases he : o.email = ""
    · simp [he]
    · have h1 := stAfter_first_any p initTrackSt o.email he
      have h2 := stAfter_seq p initTrackSt o.email he
      rw [h1, h2]
      simp [initTrackSt]
  · decide

theorem filter_eq_nil_of_any_false {α : Type} (p : α → Bool) (l : List α)
    (h : l.any p = false) : l.filter p = [] := by
  induction l with
  | nil => rfl
  | cons x t ih =>
    rw [List.any_cons] at h
    rcases Bool.or_eq_false_iff.mp h with ⟨h1, h2⟩
    rw [List.filter_cons]
    simp [h1, ih h2]

/-- The ingestion step either leaves the order store unchanged, or appends
the normalized record of a fresh, non-empty, non-excluded identifier. -/
theorem ingestStep_orders (st : IngestSt) (row : Row) :
    (ingestStep st row).orders = st.orders
    ∨ (strTrim row.name ≠ "" ∧ strContains (strTrim row.name) "_E" = false
        ∧ st.orders.any (fun o => o.name == strTrim row.name) = false
        ∧ (ingestStep st row).orders = st.orders ++ [mkOrder (strTrim row.name) row]) := by
  unfold ingestStep
  by_cases h0 : strTrim row.name = ""
  · left
    simp [h0]
  · by_cases h1 : st.orders.any (fun o => o.name == strTrim row.name) = true
    · left
      simp [h0, h1]
    · by_cases h2 : strContains (strTrim row.name) "_E" = true
      · left
        simp [h0, h1, h2]
      · right
        refine ⟨h0, by simpa using h2, by simpa using h1, ?_⟩
        simp [h0, h1, h2]

/-- The ingestion step appends the normalized record on a fresh identifier. -/
theorem ingestStep_add (st : IngestSt) (row : Row)
    (h0 : strTrim row.name ≠ "")
    (hE : strContains (strTrim row.name) "_E" = false)
    (hany : st.orders.any (fun o => o.name == strTrim row.name) = false) :
    (ingestStep st row).orders = st.orders ++ [mkOrder (strTrim row.name) row] := by
  unfold ingestStep
  simp [h0, hany, hE]

/-- Once an identifier is in the store, later rows never change its record. -/
theorem ingest_stable : ∀ (rows : List Row) (st : IngestSt) (nm : String),
    st.orders.any (fun o => o.name == nm) = true →
    (rows.foldl ingestStep st).orders.filter (fun o => o.name == nm)
      = st.orders.filter (fun o => o.name == nm) := by
  intro rows
  induction rows with
  | nil => intro st nm h; rfl
  | cons row rest ih =>
    intro st nm h
    rw [List.foldl_cons]
    rcases ingestStep_orders st row with hsame | ⟨h0, hE, hany, happ⟩
    · rw [ih _ nm (by rw [hsame]; exact h), hsame]
    · have hne : strTrim row.name ≠ nm := by
        intro hEq
        rw [hEq] at hany
        simp [h] at hany
      have hneb : ((mkOrder (strTrim row.name) row).name == nm) = false :=
        beq_eq_false_iff_ne.mpr hne
      have hany2 : (ingestStep st row).orders.any (fun o => o.name == nm) = true := by
        rw [happ, List.any_append]
        simp [h]
      rw [ih _ nm hany2, happ, List.filter_append]
      simp [hneb]

/-- The first row carrying a fresh valid identifier defines its record. -/
theorem ingest_found : ∀ (rows : List Row) (st : IngestSt) (nm : String) (r : Row),
    nm ≠ "" → strContains nm "_E" = false →
    st.orders.any (fun o => o.name == nm) = false →
    rows.find? (fun row => strTrim row.name == nm) = some r →
    (rows.foldl ingestStep st).orders.filter (fun o => o.name == nm) = [mkOrder nm r] := by
  intro rows
  induction rows with
  | nil =>
    intro st nm r _ _ _ hfind
    simp at hfind
  | cons row rest ih =>
    intro st nm r hnm hE hany hfind
    rw [List.foldl_cons]
    by_cases hhead : (strTrim row.name == nm) = true
    · have hEq : strTrim row.name = nm := beq_iff_eq.mp hhead
      rw [List.find?_cons_of_pos (p := fun q => strTrim q.name == nm) rest hhead] at hfind
      have hr : row = r := Option.some.inj hfind
      subst hr
      have happ := ingestStep_add st row (by rw [hEq]; exact hnm) (by rw [hEq]; exact hE)
        (by rw [hEq]; exact hany)
      have hany2 : (ingestStep st row).orders.any (fun o => o.name == nm) = true := by
        rw [happ, List.any_append]
        simp [mkOrder, hhead]
      rw [ingest_stable rest _ nm hany2, happ, List.filter_append,
        filter_eq_nil_of_any_false _ _ hany, List.nil_append, hEq]
      simp [mkOrder]
    · have hfind' : rest.find? (fun row => strTrim row.name == nm) = some r := by
        rw [List.find?_cons_of_neg (p := fun q => strTrim q.name == nm) rest hhead] at hfind
        exact hfind
      rcases ingestStep_orders st row with hsame | ⟨h0, hE2, hany0, happ⟩
      · exact ih _ nm r hnm hE (by rw [hsame]; exact hany) hfind'
      · refine ih _ nm r hnm hE ?_ hfind'
        rw [happ, List.any_append]
        have hne : strTrim row.name ≠ nm := fun hEq => hhead (beq_iff_eq.mpr hEq)
        have hneb : ((mkOrder (strTrim row.name) row).name == nm) = false :=
          beq_eq_false_iff_ne.mpr hne
        simp [hany, hneb]

/-- Excluded-pattern identifiers never enter the order store. -/
theorem ingest_noE : ∀ (rows : List Row) (st : IngestSt),
    (∀ o ∈ st.orders, strContains o.name "_E" = false) →
    ∀ o ∈ (rows.foldl ingestStep st).orders, strContains o.name "_E" = false := by
  intro rows
  induction rows with
  | nil => intro st h; exact h
  | cons row rest ih =>
    intro st h
    rw [List.foldl_cons]
    refine ih _ ?_
    rcases ingestStep_orders st row with hsame | ⟨h0, hE, hany, happ⟩
    · rw [hsame]
      exact h
    · rw [happ]
      intro o ho
      rcases List.mem_append.mp ho with hmem | hmem
      · exact h o hmem
      · rw [List.mem_singleton] at hmem
        subst hmem
        exact hE

/-- Claim C8: no stored identifier matches the `_E` exclusion pattern, and
for any non-empty, non-excluded identifier occurring among the input rows,
exactly one attribute record survives deduplication — the normalization of
the first row (in ingestion order) carrying that identifier. -/
theorem claim8_dedup : ∀ rows : List Row,
    (∀ o ∈ (ingest rows).orders, strContains o.name "_E" = false)
    ∧ (∀ (nm : String) (r : Row), nm ≠ "" → strContains nm "_E" = false →
        rows.find? (fun row => strTrim row.name == nm) = some r →
        (ingest rows).orders.filter (fun o => o.name == nm) = [mkOrder nm r]) := by
  intro rows
  constructor
  · exact ingest_noE rows ⟨[], []⟩ (fun o ho => absurd ho (List.not_mem_nil o))
  · intro nm r h1 h2 h3
    exact ingest_found rows ⟨[], []⟩ nm r h1 h2 rfl h3

/-- Witness for C8 on a concrete three-row input (a duplicate identifier and
an excluded `_E` identifier). -/
theorem claim8_witness :
    (ingest c8rows).orders.filter (fun o => o.name == "1001") = [mkOrder "1001" c8row1]
    ∧ strContains (strTrim c8rowE.name) "_E" = true := by
  refine ⟨(claim8_dedup c8rows).2 "1001" c8row1 (by decide) (by decide) (by decide),
    by decide⟩

/-- Value of the product-cohort loop body at one order: it adds the weight
exactly when the order is an identified subscription order with sequence
number in 1..13 whose identity's first-subscription product group is `grp`
and whose offset `sub_seq - 1` is the slot index. -/
theorem skuStep_val {β : Type} [Add β] (w : AOrder → β) (z : β) (hz : ∀ b : β, b + z = b)
    (efp : List (String × String)) (grp : String) (i : Nat) (hgrp : grp ≠ "")
    (acc : β) (o : AOrder) :
    skuStep w efp grp i acc o
      = acc + (if (o.email != "" && o.is_sub && decide (1 ≤ o.sub_seq)
          && decide (o.sub_seq ≤ 13) && (alookup efp o.email == some grp)
          && (o.sub_seq - 1 == i)) then w o else z) := by
  unfold skuStep
  cases hg : (o.email == "" || !o.is_sub || decide (o.sub_seq < 1) || decide (13 < o.sub_seq))
  · have hg' := hg
    simp only [Bool.or_eq_false_iff, decide_eq_false_iff_not, not_lt] at hg'
    obtain ⟨⟨⟨hge, hgs⟩, hg1⟩, hg13⟩ := hg'
    have he' : (o.email != "") = true := by simp [bne, hge]
    have hs' : o.is_sub = true := by simpa using hgs
    have h1' : decide (1 ≤ o.sub_seq) = true := by simp [hg1]
    have h13' : decide (o.sub_seq ≤ 13) = true := by simp [hg13]
    rcases halk : alookup efp o.email with _ | gp
    · have hnone : ((none : Option String) == some grp) = false := rfl
      simp [hnone, hz]
    · have hsome : ((some gp : Option String) == some grp) = (gp == grp) := rfl
      by_cases hgp : gp = ""
      · subst hgp
        have hfalse : ("" == grp) = false := beq_eq_false_iff_ne.mpr (Ne.symm hgrp)
        simp [hsome, hfalse, hz]
      · have hgpb : (gp == "") = false := beq_eq_false_iff_ne.mpr hgp
        cases hmatch : (gp == grp && (o.sub_seq - 1 == i))
        · rcases Bool.and_eq_false_iff.mp hmatch with hf | hf <;>
            simp [hgpb, hsome, hmatch, he', hs', h1', h13', hf, hz]
        · rcases (Bool.and_eq_true _ _).mp hmatch with ⟨hf1, hf2⟩
          simp [hgpb, hsome, hmatch, he', hs', h1', h13', hf1, hf2]
  · have hg' := hg
    have hpredf : (o.email != "" && o.is_sub && decide (1 ≤ o.sub_seq)
        && decide (o.sub_seq ≤ 13) && (alookup efp o.email == some grp)
        && (o.sub_seq - 1 == i)) = false := by
      simp only [Bool.or_eq_true] at hg'
      rcases hg' with ((ha | hb) | hc) | hd
      · have : (o.email != "") = false := by simp [bne, ha]
        simp [this]
      · have : o.is_sub = false := by simpa using hb
        simp [this]
      · have hlt := of_decide_eq_true hc
        have : decide (1 ≤ o.sub_seq) = false := by
          simp
          omega
        simp [this]
      · have hlt := of_decide_eq_true hd
        have : decide (o.sub_seq ≤ 13) = false := by
          simp
          omega
        simp [this]
    simp [hg, hpredf, hz]

/-- Order-count characterization of the product-cohort fold. -/
theorem skuFold_count (efp : List (String × String)) (grp : String) (i : Nat)
    (hgrp : grp ≠ "") :
    ∀ (l : List AOrder) (acc : Nat),
      l.foldl (skuStep (fun _ => 1) efp grp i) acc
        = acc + l.countP (fun o => o.email != "" && o.is_sub && decide (1 ≤ o.sub_seq)
            && decide (o.sub_seq ≤ 13) && (alookup efp o.email == some grp)
            && (o.sub_seq - 1 == i)) := by
  intro l
  induction l with
  | nil => intro acc; simp
  | cons o t ih =>
    intro acc
    rw [List.foldl_cons, skuStep_val (fun _ => 1) 0 Nat.add_zero efp grp i hgrp acc o, ih,
      List.countP_cons]
    cases hpred : (o.email != "" && o.is_sub && decide (1 ≤ o.sub_seq)
        && decide (o.sub_seq ≤ 13) && (alookup efp o.email == some grp)
        && (o.sub_seq - 1 == i)) <;> simp [hpred] <;> omega

/-- Revenue characterization of the product-cohort fold. -/
theorem skuFold_rev (efp : List (String × String)) (grp : String) (i : Nat)
    (hgrp : grp ≠ "") :
    ∀ (l : List AOrder) (acc : ℚ),
      l.foldl (skuStep (fun o => o.subtotal + o.discount) efp grp i) acc
        = acc + ((l.filter (fun o => o.email != "" && o.is_sub && decide (1 ≤ o.sub_seq)
            && decide (o.sub_seq ≤ 13) && (alookup efp o.email == some grp)
            && (o.sub_seq - 1 == i))).map (fun o => o.subtotal + o.discount)).sum := by
  intro l
  induction l with
  | nil => intro acc; simp
  | cons o t ih =>
    intro acc
    rw [List.foldl_cons,
      skuStep_val (fun o => o.subtotal + o.discount) 0 add_zero efp grp i hgrp acc o, ih,
      List.filter_cons]
    cases hpred : (o.email != "" && o.is_sub && decide (1 ≤ o.sub_seq)
        && decide (o.sub_seq ≤ 13) && (alookup efp o.email == some grp)
        && (o.sub_seq - 1 == i)) <;> simp [hpred] <;> ring

/-- Claim C1, amended: a subscription order of an identity with an assigned
first-subscription product group contributes its gross revenue and one order
to the product-cohort slot at offset `sub_seq - 1` exactly when
`1 ≤ sub_seq ≤ 13`; orders with `sub_seq > 13` are discarded entirely (they
contribute to no slot), rather than being clipped to offset 12. -/
theorem claim1_product_cohort :
    ∀ (op : List (String × String)) (l : List AOrder) (grp : String) (i : Nat),
      grp ≠ "" →
      skuCohortOrd (emailFirstProduct op l) l grp i
          = l.countP (fun o => o.email != "" && o.is_sub && decide (1 ≤ o.sub_seq)
              && decide (o.sub_seq ≤ 13)
              && (alookup (emailFirstProduct op l) o.email == some grp)
              && (o.sub_seq - 1 == i))
      ∧ skuCohortRev (emailFirstProduct op l) l grp i
          = ((l.filter (fun o => o.email != "" && o.is_sub && decide (1 ≤ o.sub_seq)
              && decide (o.sub_seq ≤ 13)
              && (alookup (emailFirstProduct op l) o.email == some grp)
              && (o.sub_seq - 1 == i))).map (fun o => o.subtotal + o.discount)).sum := by
  intro op l grp i hgrp
  constructor
  · unfold skuCohortOrd
    rw [skuFold_count (emailFirstProduct op l) grp i hgrp l 0]
    omega
  · unfold skuCohortRev
    rw [skuFold_rev (emailFirstProduct op l) grp i hgrp l 0]
    ring

/-- Counterexample for C1 as stated: with fourteen subscription orders of one
identity (sequence numbers 1..14), all fourteen qualify per the claim, yet
only thirteen contributions reach the cohort table and slot 12 holds a single
order — the fourteenth order (sequence 14) is discarded, not clipped to
offset 12, so it contributes to no slot. -/
theorem claim1_counterexample :
    c1tracked.countP (fun o => o.email != "" && o.is_sub && decide (1 ≤ o.sub_seq)) = 14
    ∧ alookup (emailFirstProduct [] c1tracked) "a@x.com" = some "Other"
    ∧ skuCohortOrd (emailFirstProduct [] c1tracked) c1tracked "Other" 12 = 1
    ∧ ((List.range 13).map
        (fun i => skuCohortOrd (emailFirstProduct [] c1tracked) c1tracked "Other" i)).sum
      = 13 := by
  refine ⟨by decide, by decide, by decide, by decide⟩

/-- Witness for C1 (amended) at slot 0 of the concrete fourteen-order run. -/
theorem claim1_witness :
    skuCohortOrd (emailFirstProduct [] c1tracked) c1tracked "Other" 0 = 1 := by
  have h := (claim1_product_cohort [] c1tracked "Other" 0 (by decide)).1
  exact h.trans (by decide)

/-- Claim C2, amended: permuting the pre-sort valid-order sequence leaves
the canonical sort — and hence the history pass and everything downstream —
unchanged, provided the raw creation-timestamp strings are pairwise distinct.
(With tied timestamps the stable sort preserves the input's relative order of
the tied orders, so a pre-sort permutation can swap them; see the
counterexample.) -/
theorem claim2_presort_permutation :
    ∀ l1 l2 : List VOrder, l1.Perm l2 → (l1.map (fun o => o.created)).Nodup →
      sortValid l1 = sortValid l2 ∧ track (sortValid l1) = track (sortValid l2) := by
  intro l1 l2 hperm hnd
  have hs1 : (sortValid l1).Perm l1 := List.perm_insertionSort createdLe l1
  have hs2 : (sortValid l2).Perm l2 := List.perm_insertionSort createdLe l2
  have hnds1 : ((sortValid l1).map (fun o => o.created)).Nodup :=
    ((hs1.map (fun o => o.created)).nodup_iff).mpr hnd
  have hnd2 : (l2.map (fun o => o.created)).Nodup :=
    ((hperm.map (fun o => o.created)).nodup_iff).mp hnd
  have hnds2 : ((sortValid l2).map (fun o => o.created)).Nodup :=
    ((hs2.map (fun o => o.created)).nodup_iff).mpr hnd2
  have hsorted1 : List.Sorted createdLe (sortValid l1) :=
    List.sorted_insertionSort createdLe l1
  have hsorted2 : List.Sorted createdLe (sortValid l2) :=
    List.sorted_insertionSort createdLe l2
  have hst1 : List.Pairwise (fun a b : VOrder => a.created.data < b.created.data)
      (sortValid l1) := by
    have hne : List.Pairwise (fun a b : VOrder => a.created ≠ b.created) (sortValid l1) :=
      List.pairwise_map.mp hnds1
    exact (hsorted1.and hne).imp
      (fun h => lt_of_le_of_ne h.1
        (fun hd => h.2 (show _ = _ from congrArg String.mk hd)))
  have hst2 : List.Pairwise (fun a b : VOrder => a.created.data < b.created.data)
      (sortValid l2) := by
    have hne : List.Pairwise (fun a b : VOrder => a.created ≠ b.created) (sortValid l2) :=
      List.pairwise_map.mp hnds2
    exact (hsorted2.and hne).imp
      (fun h => lt_of_le_of_ne h.1
        (fun hd => h.2 (show _ = _ from congrArg String.mk hd)))
  haveI : IsAntisymm VOrder (fun a b : VOrder => a.created.data < b.created.data) :=
    ⟨fun _ _ h1 h2 => absurd h2 (lt_asymm h1)⟩
  have hkey : sortValid l1 = sortValid l2 :=
    List.eq_of_perm_of_sorted (hs1.trans (hperm.trans hs2.symm)) hst1 hst2
  exact ⟨hkey, by rw [hkey]⟩

/-- Counterexample for C2 as stated: two subscription orders of one identity
share one raw creation timestamp; swapping them before the sort swaps them
after the stable sort, and order `#UA` receives subscription sequence number
1 in one run and 2 in the other. -/
theorem claim2_counterexample :
    ([c2tieA, c2tieB] : List VOrder).Perm [c2tieB, c2tieA]
    ∧ ((track (sortValid [c2tieA, c2tieB])).find? (fun a => a.name == "#UA")).map
        (fun a => a.sub_seq) = some 1
    ∧ ((track (sortValid [c2tieB, c2tieA])).find? (fun a => a.name == "#UA")).map
        (fun a => a.sub_seq) = some 2 := by
  refine ⟨List.Perm.swap c2tieB c2tieA [], by decide, by decide⟩

/-- Witness for C2 (amended) on two orders with distinct timestamps. -/
theorem claim2_witness :
    sortValid [c2dA, c2dB] = sortValid [c2dB, c2dA]
    ∧ track (sortValid [c2dA, c2dB]) = track (sortValid [c2dB, c2dA]) :=
  claim2_presort_permutation [c2dA, c2dB] [c2dB, c2dA]
    (List.Perm.swap c2dB c2dA []) (by decide)

/-- Witness for C4 on a concrete two-order list. -/
theorem claim4_witness :
    (ALL_MONTHS.map
        (fun m => (bucketOf [sampleA "US" "2024-03", sampleA "DE" "2024-04"] "ALL" m).o)).sum
      = 2
    ∧ (ALL_MONTHS.map
        (fun m => (bucketOf [sampleA "US" "2024-03", sampleA "DE" "2024-04"] "US" m).o)).sum
      = 1 := by
  have h := claim4_conservation.1 [sampleA "US" "2024-03", sampleA "DE" "2024-04"]
    (by decide)
  refine ⟨h.1.trans (by decide), (h.2 "US" (by decide)).trans (by decide)⟩

end BCL
